import Mathlib

/-!
# AGScheduler: verification of the scheduler core

A shallow embedding of the AGScheduler job-scheduling library
(`scheduler.go`, `job.go` and the scheduler portion of the concatenated
sources) together with proofs about its operations.

Modelling conventions:
* Instants (`time.Time`) are integers of Unix seconds in UTC.  All times the
  scheduler stores are second-truncated (`time.Unix(t.Unix(), 0)`), so whole
  seconds lose nothing; the tick's `now` is likewise taken at whole seconds.
* A timezone (`time.Location`) is its offset east of UTC in seconds.
  `time.LoadLocation` is modelled by a finite table of IANA names standing in
  for the zone database: known names resolve, unknown names fail, and the
  empty string resolves to UTC exactly as in Go.
* Go's zero `time.Time` (`IsZero`) is the instant 0001-01-01 00:00:00 UTC.
* `time.ParseInLocation` with the `time.DateTime` layout and
  `time.ParseDuration` are implemented over the character list of the input,
  faithful to the grammar on the forms the repository uses (fixed-width
  "YYYY-MM-DD HH:MM:SS" datetimes; integer duration components with units
  ns/us/ms/s/m/h, optional sign, and the special case "0").
* The external cron library (`github.com/gorhill/cronexpr`) is third-party
  code; it is modelled on the every-minute expressions the repository uses
  ("* * * * *", "*/1 * * * *"): the next firing strictly after `t` is the
  next minute boundary.  Other expressions are treated as parse failures.
-/

/-! ## Calendar arithmetic (Go `time` package, second precision) -/

/-- Days from 1970-01-01 to the given civil date (Hinnant's algorithm,
with explicit floor division so the year-0 branch is convention-free). -/
def daysFromCivil (y m d : Int) : Int :=
  let y' := if m ≤ 2 then y - 1 else y
  let era := Int.fdiv y' 400
  let yoe := y' - era * 400
  let mp := if 2 < m then m - 3 else m + 9
  let doy := Int.fdiv (153 * mp + 2) 5 + d - 1
  let doe := yoe * 365 + Int.fdiv yoe 4 - Int.fdiv yoe 100 + doy
  era * 146097 + doe - 719468

/-- Unix seconds (UTC) of a civil date-time. -/
def civilUnix (y m d hh mm ss : Int) : Int :=
  daysFromCivil y m d * 86400 + hh * 3600 + mm * 60 + ss

/-- `Unix()` of Go's zero `time.Time` (0001-01-01 00:00:00 UTC);
`Time.IsZero` at second precision.  -/
def timeZeroUnix : Int := civilUnix 1 1 1 0 0 0


/-! ## Timezones -/

/-- `time.LoadLocation`, modelled as a finite table of IANA names standing in
for the zone database; the result is the offset east of UTC in seconds.
Go resolves the empty name to UTC. -/
def loadLocation : String → Option Int
  | "" => some 0
  | "UTC" => some 0
  | "Asia/Shanghai" => some 28800
  | "America/New_York" => some (-18000)
  | "Europe/Berlin" => some 3600
  | _ => none

/-! ## String parsing (datetime layout and durations) -/

/-- Value of an ASCII digit character. -/
def digitVal (c : Char) : Option Nat :=
  if 48 ≤ c.toNat ∧ c.toNat ≤ 57 then some (c.toNat - 48) else none

/-- Days in a month of the proleptic Gregorian calendar. -/
def daysInMonth (y m : Int) : Int :=
  if m = 2 then
    if Int.emod y 4 = 0 ∧ (Int.emod y 100 ≠ 0 ∨ Int.emod y 400 = 0) then 29 else 28
  else if m = 4 ∨ m = 6 ∨ m = 9 ∨ m = 11 then 30
  else 31

def twoDigits (a b : Char) : Option Int := do
  let x ← digitVal a
  let y ← digitVal b
  some ((x * 10 + y : Nat) : Int)

def fourDigits (a b c d : Char) : Option Int := do
  let x ← twoDigits a b
  let y ← twoDigits c d
  some (x * 100 + y)

/-- Parse the fixed-width `time.DateTime` layout "2006-01-02 15:04:05" from a
character list, validating field ranges as `time.Parse` does. -/
def parseDateTimeChars : List Char → Option (Int × Int × Int × Int × Int × Int)
  | [y1, y2, y3, y4, p1, m1, m2, p2, d1, d2, p3, h1, h2, p4, n1, n2, p5, s1, s2] =>
    if p1 = '-' ∧ p2 = '-' ∧ p3 = ' ' ∧ p4 = ':' ∧ p5 = ':' then do
      let y ← fourDigits y1 y2 y3 y4
      let mo ← twoDigits m1 m2
      let da ← twoDigits d1 d2
      let ho ← twoDigits h1 h2
      let mi ← twoDigits n1 n2
      let se ← twoDigits s1 s2
      if 1 ≤ mo ∧ mo ≤ 12 ∧ 1 ≤ da ∧ da ≤ daysInMonth y mo ∧
          ho ≤ 23 ∧ mi ≤ 59 ∧ se ≤ 59 then
        some (y, mo, da, ho, mi, se)
      else
        none
    else none
  | _ => none

/-- `time.ParseInLocation(time.DateTime, s, loc)` at second precision: the
wall-clock fields are interpreted at offset `off` east of UTC. -/
def parseDateTimeIn (off : Int) (s : String) : Option Int :=
  (parseDateTimeChars s.toList).map
    (fun (y, mo, da, ho, mi, se) => civilUnix y mo da ho mi se - off)


/-- Greedily read leading digits; `none` when the first character is not a
digit. -/
def munchDigits : List Char → Nat → Nat × List Char
  | [], acc => (acc, [])
  | c :: r, acc =>
    match digitVal c with
    | some d => munchDigits r (acc * 10 + d)
    | none => (acc, c :: r)

def parseLeadingNat (cs : List Char) : Option (Nat × List Char) :=
  match cs with
  | [] => none
  | c :: _ =>
    match digitVal c with
    | some _ => some (munchDigits cs 0)
    | none => none

/-- A duration unit prefix and its length in nanoseconds
(`time.ParseDuration`'s unit table, ASCII units). -/
def parseUnitNs : List Char → Option (Int × List Char)
  | 'n' :: 's' :: r => some (1, r)
  | 'u' :: 's' :: r => some (1000, r)
  | 'm' :: 's' :: r => some (1000000, r)
  | 'm' :: r => some (60000000000, r)
  | 's' :: r => some (1000000000, r)
  | 'h' :: r => some (3600000000000, r)
  | _ => none

/-- Repeated number-unit components of a duration ("1h30m"); fueled by the
input length (each component consumes at least one character). -/
def parseDurParts : Nat → List Char → Option Int
  | _, [] => some 0
  | 0, _ => none
  | fuel + 1, cs => do
    let (n, r) ← parseLeadingNat cs
    let (u, r2) ← parseUnitNs r
    let rest ← parseDurParts fuel r2
    some ((n : Int) * u + rest)

/-- `time.ParseDuration`, in nanoseconds, restricted to integer components
(the only forms the repository uses). -/
def parseDuration (s : String) : Option Int :=
  match s.toList with
  | [] => none
  | ['0'] => some 0
  | '-' :: cs =>
    if cs = [] then none
    else (parseDurParts cs.length cs).map (fun v => -v)
  | '+' :: cs =>
    if cs = [] then none else parseDurParts cs.length cs
  | cs => parseDurParts cs.length cs


/-- Modelled from the spec: the external cron library (`cronexpr`), whose
source is not part of this repository.  Per the spec, the result is the
"first firing strictly after `now`"; the model covers the every-minute
expressions the repository uses and treats all others as parse failures. -/
def cronNext (expr : String) (t : Int) : Option Int :=
  if expr = "* * * * *" ∨ expr = "*/1 * * * *" then
    some (t - Int.emod t 60 + 60)
  else
    none


/-! ## The Job model (`job.go`) -/

def TYPE_DATETIME : String := "datetime"
def TYPE_INTERVAL : String := "interval"
def TYPE_CRON : String := "cron"
def STATUS_RUNNING : String := "running"
def STATUS_PAUSED : String := "paused"

/-- The `Job` record.  `func` models the `Func` field as the runtime name of
the function pointer (`getFuncName`); the empty string is a nil `Func`.
`args` carries the payload opaquely.  `timeout` and `queues` are the fields
the newer scheduler reads (`j.Timeout`, `j.Queues`). -/
structure Job where
  id : String := ""
  name : String := ""
  type : String := ""
  startAt : String := ""
  endAt : String := ""
  interval : String := ""
  cronExpr : String := ""
  timezone : String := ""
  func : String := ""
  funcName : String := ""
  args : List (String × String) := []
  timeout : String := ""
  queues : List String := []
  lastRunTime : Int := timeZeroUnix
  nextRunTime : Int := timeZeroUnix
  status : String := ""
deriving Repr, DecidableEq

/-- The function registry `FuncMap`, reduced to the set of registered
function names (the callables themselves never influence control flow beyond
presence). -/
abbrev Registry := List String

/-- Error kinds of the scheduler domain (spec §7); `CalcNextRunTime`'s
`fmt.Errorf` failures are the `invalidSpec`/`typeUnknown` kinds. -/
inductive AgError where
  | jobNotFound (id : String)
  | funcUnregistered (name : String)
  | invalidSpec (field detail : String)
  | typeUnknown (t : String)
  | duplicateId (id : String)
deriving Repr, DecidableEq

/-! ## The store

Modelled from the spec: the concrete store backends are not among the
provided sources; §4.3 gives the contract (insert rejecting duplicate ids,
fetch by id with `JobNotFound`, replace by id, remove with absent-is-success,
and `GetNextRunTime` returning the minimum `NextRunTime` or
`NEXT_RUN_TIME_MAX` when the store is empty). -/

def findJob : List Job → String → Option Job
  | [], _ => none
  | k :: ks, i => if k.id = i then some k else findJob ks i

def replaceJob : List Job → Job → List Job
  | [], _ => []
  | k :: ks, j => if k.id = j.id then j :: replaceJob ks j else k :: replaceJob ks j

def removeJob : List Job → String → List Job
  | [], _ => []
  | k :: ks, i => if k.id = i then removeJob ks i else k :: removeJob ks i

structure StoreState where
  jobs : List Job
deriving Repr, DecidableEq

/-- `NEXT_RUN_TIME_MAX` at a timezone offset: the instant
"9999-09-09 09:09:09" on the wall clock of that zone. -/
def nextRunTimeMaxAt (off : Int) : Int := civilUnix 9999 9 9 9 9 9 - off

/-- The sentinel in UTC, the "store is empty" default of `GetNextRunTime`. -/
def nextRunTimeMaxUtc : Int := nextRunTimeMaxAt 0

def StoreState.getJob (st : StoreState) (i : String) : Except AgError Job :=
  match findJob st.jobs i with
  | some k => .ok k
  | none => .error (.jobNotFound i)

def StoreState.addJob (st : StoreState) (j : Job) : Except AgError StoreState :=
  match findJob st.jobs j.id with
  | some _ => .error (.duplicateId j.id)
  | none => .ok ⟨st.jobs ++ [j]⟩

def StoreState.updateJob (st : StoreState) (j : Job) : Except AgError StoreState :=
  match findJob st.jobs j.id with
  | some _ => .ok ⟨replaceJob st.jobs j⟩
  | none => .error (.jobNotFound j.id)

def StoreState.deleteJob (st : StoreState) (i : String) : StoreState :=
  ⟨removeJob st.jobs i⟩

def minNextRunTime : List Job → Int → Int
  | [], acc => acc
  | k :: ks, acc => minNextRunTime ks (min acc k.nextRunTime)

def StoreState.getNextRunTime (st : StoreState) : Int :=
  match st.jobs with
  | [] => nextRunTimeMaxUtc
  | k :: ks => minNextRunTime ks k.nextRunTime

/-! ## `CalcNextRunTime` (`scheduler.go`)

Both revisions of the source resolve the timezone first and only then test
the paused status; the paused branch returns the "9999-09-09 09:09:09"
sentinel on the wall clock of the job's zone (`scheduler.go` parses it
in `timezone`), truncated to whole-second UTC. -/

/-- `strings.ToLower`, over the character list (ASCII; kernel-reducible,
unlike `String.toLower`). -/
def lowerChar (c : Char) : Char :=
  if 65 ≤ c.toNat ∧ c.toNat ≤ 90 then Char.ofNat (c.toNat + 32) else c

def strToLower (s : String) : String := ⟨s.toList.map lowerChar⟩

def calcNextRunTime (now : Int) (j : Job) : Except AgError Int :=
  match loadLocation j.timezone with
  | none => .error (.invalidSpec "Timezone" j.timezone)
  | some off =>
    if j.status = STATUS_PAUSED then
      .ok (nextRunTimeMaxAt off)
    else if strToLower j.type = TYPE_DATETIME then
      match parseDateTimeIn off j.startAt with
      | none => .error (.invalidSpec "StartAt" j.startAt)
      | some t => .ok t
    else if strToLower j.type = TYPE_INTERVAL then
      match parseDuration j.interval with
      | none => .error (.invalidSpec "Interval" j.interval)
      | some d => .ok (now + Int.fdiv d 1000000000)
    else if strToLower j.type = TYPE_CRON then
      match cronNext j.cronExpr now with
      | none => .error (.invalidSpec "CronExpr" j.cronExpr)
      | some t => .ok t
    else
      .error (.typeUnknown j.type)

/-! ## Scheduler operations (`scheduler.go`) -/

/-- Modelled from the spec: `Job.check` is not among the provided sources
(only its caller `UpdateJob` is); per §4.1 it re-validates the job, failing
with `FuncUnregistered` when `FuncName` is not registered. -/
def Job.check (j : Job) (reg : Registry) : Except AgError Unit :=
  if reg.contains j.funcName then .ok () else .error (.funcUnregistered j.funcName)

/-- The straight-line defaulting assignments at the head of `Job.init`:
id, `Status←running`, `Timezone←UTC`, `FuncName` from the callable,
`Timeout←1h`. -/
def Job.withDefaults (j : Job) (newId : String) : Job :=
  let j := { j with id := newId, status := STATUS_RUNNING }
  let j := if j.timezone = "" then { j with timezone := "UTC" } else j
  let j := if j.funcName = "" then { j with funcName := j.func } else j
  if j.timeout = "" then { j with timeout := "1h" } else j

/-- The straight-line defaulting assignments at the head of the older
`AddJob` (no `Timeout` field existed in that revision). -/
def Job.withDefaultsV1 (j : Job) (newId : String) : Job :=
  let j := { j with id := newId, status := STATUS_RUNNING }
  let j := if j.timezone = "" then { j with timezone := "UTC" } else j
  if j.funcName = "" then { j with funcName := j.func } else j

/-- Modelled from the spec: `Job.init` is not among the provided sources
(only its caller `AddJob` is); per §4.1 `AddJob` "validates `j`, assigns
`Id`, sets defaults (`Timezone←UTC`, `Timeout←1h`, `Status←running`),
resolves `FuncName` from the provided callable if absent, computes
`NextRunTime`".  `newId` stands for the generated UUID. -/
def Job.init (j : Job) (reg : Registry) (now : Int) (newId : String) : Except AgError Job :=
  let j := j.withDefaults newId
  match j.check reg with
  | .error e => .error e
  | .ok _ =>
    match calcNextRunTime now j with
    | .error e => .error e
    | .ok nrt => .ok { j with nextRunTime := nrt }

namespace Scheduler

/-- `Scheduler.AddJob` of the newer scheduler: initialise the job, then
persist it through the store. -/
def addJob (reg : Registry) (now : Int) (newId : String) (st : StoreState) (j : Job) :
    Except AgError (StoreState × Job) :=
  match j.init reg now newId with
  | .error e => .error e
  | .ok j =>
    match st.addJob j with
    | .error e => .error e
    | .ok st' => .ok (st', j)

/-- `Scheduler.AddJob` of the older revision (`scheduler.go` lines 66-96):
sets `Status` to running unconditionally, defaults `Timezone` and
`FuncName`, rejects unregistered functions, and computes `NextRunTime`
only when the caller-supplied value is the zero time.  `CalcNextRunTime`
is shared with the newer revision (identical on these paths). -/
def addJobV1 (reg : Registry) (now : Int) (newId : String) (st : StoreState) (j : Job) :
    Except AgError (StoreState × Job) :=
  let j := j.withDefaultsV1 newId
  if reg.contains j.funcName = false then
    .error (.funcUnregistered j.funcName)
  else
    let jr : Except AgError Job :=
      if j.nextRunTime = timeZeroUnix then
        match calcNextRunTime now j with
        | .error e => .error e
        | .ok nrt => .ok { j with nextRunTime := nrt }
      else
        .ok j
    match jr with
    | .error e => .error e
    | .ok j =>
      match st.addJob j with
      | .error e => .error e
      | .ok st' => .ok (st', j)

/-- The status coercion of `UpdateJob`: an empty or unknown `Status` is
replaced by the previously stored one. -/
def coerceStatus (j oJ : Job) : Job :=
  if j.status = "" ∨ (j.status ≠ STATUS_RUNNING ∧ j.status ≠ STATUS_PAUSED)
  then { j with status := oJ.status } else j

/-- `Scheduler.UpdateJob`: requires the id to exist, coerces an invalid
status to the previously stored one, re-validates, recomputes
`NextRunTime`, persists, and returns the persisted snapshot.  The
timer-wakeup side effect concerns real time only and is outside the store
model. -/
def updateJob (reg : Registry) (now : Int) (st : StoreState) (j : Job) :
    Except AgError (StoreState × Job) :=
  match st.getJob j.id with
  | .error e => .error e
  | .ok oJ =>
    let j := coerceStatus j oJ
    match j.check reg with
    | .error e => .error e
    | .ok _ =>
      match calcNextRunTime now j with
      | .error e => .error e
      | .ok nrt =>
        let j := { j with nextRunTime := nrt }
        match st.updateJob j with
        | .error e => .error e
        | .ok st' => .ok (st', j)

/-- `Scheduler.DeleteJob`: requires the id to exist, then removes it. -/
def deleteJob (st : StoreState) (i : String) : Except AgError StoreState :=
  match st.getJob i with
  | .error e => .error e
  | .ok _ => .ok (st.deleteJob i)

/-- `Scheduler.PauseJob`: fetch, set paused, hand to `UpdateJob`. -/
def pauseJob (reg : Registry) (now : Int) (st : StoreState) (i : String) :
    Except AgError (StoreState × Job) :=
  match st.getJob i with
  | .error e => .error e
  | .ok j => updateJob reg now st { j with status := STATUS_PAUSED }

/-- `Scheduler.ResumeJob`: fetch, set running, hand to `UpdateJob`. -/
def resumeJob (reg : Registry) (now : Int) (st : StoreState) (i : String) :
    Except AgError (StoreState × Job) :=
  match st.getJob i with
  | .error e => .error e
  | .ok j => updateJob reg now st { j with status := STATUS_RUNNING }

/-- Outcome of `_runJob`: the function either runs (as a spawned task),
is skipped with a warning when unregistered, or aborts when the job's
`Timeout` does not parse. -/
inductive RunEffect where
  | ran (funcName : String)
  | warnedUnregistered (funcName : String)
  | timeoutErr (timeout : String)
deriving Repr, DecidableEq

/-- `_runJob`: look up the function (nil → warning), parse `Timeout`
(failure → `JobTimeoutError`), otherwise invoke the function once.
No store operation is performed. -/
def runJobEffect (reg : Registry) (j : Job) : RunEffect :=
  if ¬ reg.contains j.funcName then
    .warnedUnregistered j.funcName
  else
    match parseDuration j.timeout with
    | none => .timeoutErr j.timeout
    | some _ => .ran j.funcName

/-- `Scheduler.RunJob`: fires the job once out-of-band via `_runJob`;
the store is passed through untouched (no store API is called). -/
def runJob (reg : Registry) (st : StoreState) (j : Job) : StoreState × RunEffect :=
  (st, runJobEffect reg j)

/-- `Scheduler._flushJob(j, now)`: stamp `LastRunTime` with the tick time
(second-truncated UTC); a datetime job whose (already recomputed)
`NextRunTime` is in the past is deleted, a non-datetime job is persisted
through `UpdateJob`, and a datetime job whose recomputed `NextRunTime` is
not in the past is left untouched. -/
def flushJob (reg : Registry) (now : Int) (st : StoreState) (j : Job) :
    Except AgError StoreState :=
  let j := { j with lastRunTime := now }
  if j.type = TYPE_DATETIME then
    if j.nextRunTime < now then deleteJob st j.id
    else .ok st
  else
    match updateJob reg now st j with
    | .error e => .error e
    | .ok (st', _) => .ok st' 

end Scheduler

/-! ## The run loop (`Scheduler.run`), one tick -/

/-- Modelled from the spec: the `JobSlice` ordering used by
`sort.Sort(JobSlice(js))` is not among the provided sources; per the spec
the tick sorts "ascending by `NextRunTime` (ties broken by `Id`
lexicographically for determinism)". -/
def jobLe (a b : Job) : Bool :=
  a.nextRunTime < b.nextRunTime ∨
    (a.nextRunTime = b.nextRunTime ∧ (a.id < b.id ∨ a.id = b.id))

def insertJob (j : Job) : List Job → List Job
  | [] => [j]
  | k :: ks => if jobLe j k then j :: k :: ks else k :: insertJob j ks

def sortJobs : List Job → List Job
  | [] => []
  | j :: js => insertJob j (sortJobs js)

namespace Scheduler

/-- The per-tick iteration over the sorted jobs: a job strictly before `now`
is due; its next run time is recomputed (a failure is logged and the job
skipped), it is dispatched, and `_flushJob` persists the outcome (a flush
failure is logged and the store left as it was).  The first job not
strictly before `now` breaks the loop.  Returns the final store and the
dispatched jobs (with their recomputed `NextRunTime`, in dispatch
order). -/
def runJobsLoop (reg : Registry) (now : Int) (st : StoreState) :
    List Job → StoreState × List Job
  | [] => (st, [])
  | j :: rest =>
    if j.nextRunTime < now then
      match calcNextRunTime now j with
      | .error _ => runJobsLoop reg now st rest
      | .ok nrt =>
        let j' := { j with nextRunTime := nrt }
        let st' :=
          match flushJob reg now st j' with
          | .ok s2 => s2
          | .error _ => st
        let (stF, fs) := runJobsLoop reg now st' rest
        (stF, j' :: fs)
    else
      (st, [])

/-- `getNextWakeupInterval` in seconds: the store's minimum next run time
minus `now`, replaced by one second when negative. -/
def getNextWakeupInterval (now : Int) (st : StoreState) : Int :=
  let nextRunTimeMin := st.getNextRunTime
  let i := nextRunTimeMin - now
  if i < 0 then 1 else i

/-- Result of one timer tick of the standalone run loop. -/
structure TickResult where
  store : StoreState
  fired : List Job
  nextWakeupInterval : Int
deriving Repr, DecidableEq

/-- One tick of `Scheduler.run` in standalone mode: read all jobs, sort,
iterate with the monotone cut-off, then reset the timer to the next wakeup
interval.  The loop has no exit on an empty store; only `quitChan` ends
it. -/
def runTick (reg : Registry) (now : Int) (st : StoreState) : TickResult :=
  let js := sortJobs st.jobs
  let (st', fired) := runJobsLoop reg now st js
  { store := st', fired := fired, nextWakeupInterval := getNextWakeupInterval now st' }

end Scheduler

/-! ## Concrete instances used in sanity checks, witnesses and counterexamples -/

instance {ε α : Type} [DecidableEq ε] [DecidableEq α] : DecidableEq (Except ε α) := fun x y =>
  match x, y with
  | .ok a, .ok b =>
    if h : a = b then .isTrue (by rw [h]) else .isFalse (by intro hc; cases hc; exact h rfl)
  | .error a, .error b =>
    if h : a = b then .isTrue (by rw [h]) else .isFalse (by intro hc; cases hc; exact h rfl)
  | .ok _, .error _ => .isFalse (by intro hc; cases hc)
  | .error _, .ok _ => .isFalse (by intro hc; cases hc)

/-- Job component of a successful scheduler operation. -/
def okJob : Except AgError (StoreState × Job) → Option Job
  | .ok (_, j) => some j
  | .error _ => none

/-- Store component of a successful scheduler operation. -/
def okStore : Except AgError (StoreState × Job) → Option StoreState
  | .ok (st, _) => some st
  | .error _ => none

/-- A registry with one registered function. -/
def regW : Registry := ["main.printMsg"]

/-- A plain running interval job. -/
def jobIntW : Job :=
  { id := "b", type := "interval", interval := "2s", timezone := "UTC",
    funcName := "main.printMsg", timeout := "1h", status := "running",
    nextRunTime := 100 }

/-- A running datetime job whose `StartAt` is exactly the sentinel instant. -/
def jobSentW : Job :=
  { id := "a", type := "datetime", startAt := "9999-09-09 09:09:09",
    timezone := "UTC", funcName := "main.printMsg", timeout := "1h",
    status := "running", nextRunTime := 100 }

/-- A datetime job whose stored `NextRunTime` (50) is stale: its `StartAt`
parses to the future instant 4102444800 (2100-01-01 00:00:00 UTC). -/
def jobStaleW : Job :=
  { id := "c", type := "datetime", startAt := "2100-01-01 00:00:00",
    timezone := "UTC", funcName := "main.printMsg", timeout := "1h",
    status := "running", nextRunTime := 50 }

/-- A datetime job whose `StartAt` (epoch 1695367808) lies in the past of
the tick time used with it. -/
def jobPastW : Job :=
  { id := "d", type := "datetime", startAt := "2023-09-22 07:30:08",
    timezone := "UTC", funcName := "main.printMsg", timeout := "1h",
    status := "running", nextRunTime := 1695367808 }

/-- A paused job with an unresolvable timezone. -/
def jobBadTzW : Job :=
  { id := "e", type := "interval", interval := "2s", timezone := "Mars/Olympus",
    funcName := "main.printMsg", timeout := "1h", status := "paused",
    nextRunTime := 100 }

/-- An input job with an unresolvable timezone but a caller-supplied
(non-zero) `NextRunTime`. -/
def jobAddW : Job :=
  { type := "interval", interval := "2s", timezone := "Mars/Olympus",
    func := "main.printMsg", status := "paused", nextRunTime := 100 }

/-- `jobSentW` as `UpdateJob` persists it: recomputed `NextRunTime` is the
sentinel while `Status` stays running. -/
def jobSentW1 : Job := { jobSentW with nextRunTime := nextRunTimeMaxUtc }

/-- An update request carrying an invalid status and a changed interval. -/
def jobUpdW : Job := { jobIntW with status := "bogus", interval := "4s" }

/-- What `UpdateJob` persists for `jobUpdW` at tick 100: status coerced back
to running, `NextRunTime` recomputed to 104. -/
def jobUpdW1 : Job := { jobIntW with interval := "4s", nextRunTime := 104 }

/-- `jobAddW` as the older `AddJob` persists it: id assigned, `FuncName`
resolved, status forced to running, caller's `NextRunTime` kept. -/
def jobAddW1 : Job :=
  { jobAddW with id := "id1", funcName := "main.printMsg", status := STATUS_RUNNING }

/-- `jobAddW` with the zero `NextRunTime` (so `AddJob` must compute it). -/
def jobAddZW : Job := { jobAddW with nextRunTime := timeZeroUnix }

/-- An input job referencing an unregistered function. -/
def jobNoFuncW : Job :=
  { type := "interval", interval := "2s", funcName := "nope", nextRunTime := 100 }

/-- Pause then resume `jobPastW` at an instant after its `StartAt`. -/
def pauseResumePastRun : Except AgError (StoreState × Job) :=
  match Scheduler.pauseJob regW 1700000000 ⟨[jobPastW]⟩ "d" with
  | .error e => .error e
  | .ok (st1, _) => Scheduler.resumeJob regW 1700000000 st1 "d"

/-! ## The pause-sentinel store invariant -/

/-- A single job satisfies the pause-sentinel property: a paused job's
`NextRunTime` is `NEXT_RUN_TIME_MAX` on its (resolvable) timezone. -/
def jobInvB (j : Job) : Bool :=
  if j.status = STATUS_PAUSED then
    match loadLocation j.timezone with
    | some off => j.nextRunTime = nextRunTimeMaxAt off
    | none => false
  else true

/-- Every stored job satisfies the pause-sentinel property. -/
def StoreInv (st : StoreState) : Prop := ∀ j ∈ st.jobs, jobInvB j = true

/-- `jobIntW` as the flush persists it at tick 101. -/
def jobIntWF : Job := { jobIntW with lastRunTime := 101, nextRunTime := 103 }

/-- `jobIntW` with only the flush's `LastRunTime` stamp. -/
def jobIntWL : Job := { jobIntW with lastRunTime := 101 }

instance (st : StoreState) : Decidable (StoreInv st) :=
  inferInstanceAs (Decidable (∀ j ∈ st.jobs, jobInvB j = true))

/-! ## Sanity checks of the embedding on concrete inputs -/

example : timeZeroUnix = -62135596800 := by decide
example : civilUnix 1970 1 1 0 0 0 = 0 := by decide
example : civilUnix 2023 9 22 7 30 8 = 1695367808 := by decide
example : nextRunTimeMaxUtc = 253392484149 := by decide
example : parseDateTimeIn 0 "2023-09-22 07:30:08" = some 1695367808 := by decide
example : parseDateTimeIn 28800 "2023-09-22 07:30:08" = some (1695367808 - 28800) := by decide
example : parseDateTimeIn 0 "2023-9-22 07:30:08" = none := by decide
example : parseDateTimeIn 0 "2023-13-22 07:30:08" = none := by decide
example : parseDuration "2s" = some 2000000000 := by decide
example : parseDuration "1h30m" = some 5400000000000 := by decide
example : parseDuration "100ms" = some 100000000 := by decide
example : parseDuration "-2s" = some (-2000000000) := by decide
example : parseDuration "" = none := by decide
example : parseDuration "abc" = none := by decide
example : parseDuration "0" = some 0 := by decide
example : strToLower "DateTime" = "datetime" := by decide
example : cronNext "*/1 * * * *" 119 = some 120 := by decide
example : cronNext "*/1 * * * *" 120 = some 180 := by decide
example : calcNextRunTime 100 jobIntW = .ok 102 := by decide
example : calcNextRunTime 0 jobBadTzW = .error (.invalidSpec "Timezone" "Mars/Olympus") := by
  decide
example : calcNextRunTime 0 { jobIntW with status := "paused" } = .ok nextRunTimeMaxUtc := by
  decide

/-! ## Store lemmas -/

theorem findJob_id {l : List Job} {i : String} {k : Job} (h : findJob l i = some k) :
    k.id = i := by
  induction l with
  | nil => simp [findJob] at h
  | cons a as ih =>
    by_cases ha : a.id = i
    · simp [findJob, ha] at h
      subst h
      exact ha
    · simp [findJob, ha] at h
      exact ih h

theorem findJob_mem {l : List Job} {i : String} {k : Job} (h : findJob l i = some k) :
    k ∈ l := by
  induction l with
  | nil => simp [findJob] at h
  | cons a as ih =>
    by_cases ha : a.id = i
    · simp [findJob, ha] at h
      subst h
      exact List.mem_cons_self a as
    · simp [findJob, ha] at h
      exact List.mem_cons_of_mem a (ih h)

theorem mem_replaceJob {l : List Job} {j k : Job} (h : k ∈ replaceJob l j) :
    k = j ∨ k ∈ l := by
  induction l with
  | nil => simp [replaceJob] at h
  | cons a as ih =>
    by_cases ha : a.id = j.id
    · simp [replaceJob, ha] at h
      rcases h with h | h
      · exact Or.inl h
      · rcases ih h with h' | h'
        · exact Or.inl h'
        · exact Or.inr (List.mem_cons_of_mem a h')
    · simp [replaceJob, ha] at h
      rcases h with h | h
      · exact Or.inr (by simp [h])
      · rcases ih h with h' | h'
        · exact Or.inl h'
        · exact Or.inr (List.mem_cons_of_mem a h')

theorem findJob_replaceJob {l : List Job} {j oJ : Job} (h : findJob l j.id = some oJ) :
    findJob (replaceJob l j) j.id = some j := by
  induction l with
  | nil => simp [findJob] at h
  | cons a as ih =>
    by_cases ha : a.id = j.id
    · simp [replaceJob, ha, findJob]
    · simp [findJob, ha] at h
      simp [replaceJob, ha, findJob, ih h]

theorem findJob_replaceJob_of_id {l : List Job} {j2 oJ : Job} {i : String}
    (hid : j2.id = i) (h : findJob l i = some oJ) :
    findJob (replaceJob l j2) i = some j2 := by
  subst hid
  exact findJob_replaceJob h

theorem getJob_replace_self {st st' : StoreState} {j2 oJ : Job} {i : String}
    (hid : j2.id = i) (hfind : findJob st.jobs i = some oJ)
    (hjobs : st'.jobs = replaceJob st.jobs j2) :
    st'.getJob i = .ok j2 := by
  unfold StoreState.getJob
  rw [hjobs, findJob_replaceJob_of_id hid hfind]

theorem mem_removeJob {l : List Job} {i : String} {k : Job} (h : k ∈ removeJob l i) :
    k ∈ l := by
  induction l with
  | nil => simp [removeJob] at h
  | cons a as ih =>
    by_cases ha : a.id = i
    · simp [removeJob, ha] at h
      exact List.mem_cons_of_mem a (ih h)
    · simp [removeJob, ha] at h
      rcases h with h | h
      · simp [h]
      · exact List.mem_cons_of_mem a (ih h)

theorem mem_removeJob_ne {l : List Job} {i : String} {k : Job} (h : k ∈ removeJob l i) :
    k.id ≠ i := by
  induction l with
  | nil => simp [removeJob] at h
  | cons a as ih =>
    by_cases ha : a.id = i
    · simp [removeJob, ha] at h
      exact ih h
    · simp [removeJob, ha] at h
      rcases h with h | h
      · rw [h]; exact ha
      · exact ih h

/-! ## Sorting lemmas -/

theorem jobLe_nrt {a b : Job} (h : jobLe a b = true) :
    a.nextRunTime ≤ b.nextRunTime := by
  simp [jobLe] at h
  rcases h with h | h
  · exact le_of_lt h
  · exact le_of_eq h.1

theorem not_jobLe_nrt {a b : Job} (h : jobLe a b = false) :
    b.nextRunTime ≤ a.nextRunTime := by
  simp [jobLe] at h
  exact h.1

theorem mem_insertJob {j k : Job} {l : List Job} (h : k ∈ insertJob j l) :
    k = j ∨ k ∈ l := by
  induction l with
  | nil => simpa [insertJob] using h
  | cons a as ih =>
    by_cases hle : jobLe j a = true
    · simp [insertJob, hle] at h
      rcases h with h | h | h
      · exact Or.inl h
      · exact Or.inr (by simp [h])
      · exact Or.inr (by simp [h])
    · simp [insertJob, hle] at h
      rcases h with h | h
      · exact Or.inr (by simp [h])
      · rcases ih h with h' | h'
        · exact Or.inl h'
        · exact Or.inr (List.mem_cons_of_mem a h')

theorem mem_sortJobs {k : Job} {l : List Job} (h : k ∈ sortJobs l) : k ∈ l := by
  induction l with
  | nil => simp [sortJobs] at h
  | cons a as ih =>
    rcases mem_insertJob (by simpa [sortJobs] using h) with h' | h'
    · simp [h']
    · exact List.mem_cons_of_mem a (ih h')

theorem insertJob_perm (j : Job) (l : List Job) :
    List.Perm (insertJob j l) (j :: l) := by
  induction l with
  | nil => simp [insertJob]
  | cons a as ih =>
    by_cases h : jobLe j a = true
    · simp [insertJob, h]
    · simp only [insertJob, if_neg (by simp [h] : ¬ (jobLe j a = true))]
      exact (ih.cons a).trans (List.Perm.swap j a as)

theorem sortJobs_perm (l : List Job) : List.Perm (sortJobs l) l := by
  induction l with
  | nil => simp [sortJobs]
  | cons a as ih =>
    exact (insertJob_perm a (sortJobs as)).trans (ih.cons a)

theorem pairwise_insertJob {j : Job} {l : List Job}
    (h : l.Pairwise fun a b => a.nextRunTime ≤ b.nextRunTime) :
    (insertJob j l).Pairwise fun a b => a.nextRunTime ≤ b.nextRunTime := by
  induction l with
  | nil => simp [insertJob]
  | cons a as ih =>
    rcases List.pairwise_cons.mp h with ⟨ha, has⟩
    by_cases hle : jobLe j a = true
    · simp only [insertJob, if_pos hle]
      refine List.pairwise_cons.mpr ⟨?_, h⟩
      intro k hk
      rcases List.mem_cons.mp hk with hk | hk
      · rw [hk]; exact jobLe_nrt hle
      · exact le_trans (jobLe_nrt hle) (ha k hk)
    · simp only [insertJob, if_neg (by simp [hle] : ¬ (jobLe j a = true))]
      refine List.pairwise_cons.mpr ⟨?_, ih has⟩
      intro k hk
      rcases mem_insertJob hk with hk | hk
      · rw [hk]; exact not_jobLe_nrt (by simpa using hle)
      · exact ha k hk

theorem pairwise_sortJobs (l : List Job) :
    (sortJobs l).Pairwise fun a b => a.nextRunTime ≤ b.nextRunTime := by
  induction l with
  | nil => simp [sortJobs]
  | cons a as ih => exact pairwise_insertJob ih

/-! ## CalcNextRunTime lemmas -/

theorem calc_paused_sentinel {now : Int} {j : Job} {t : Int}
    (hok : calcNextRunTime now j = .ok t) (hp : j.status = STATUS_PAUSED) :
    ∃ off, loadLocation j.timezone = some off ∧ t = nextRunTimeMaxAt off := by
  unfold calcNextRunTime at hok
  cases hl : loadLocation j.timezone with
  | none => rw [hl] at hok; cases hok
  | some off =>
    rw [hl] at hok
    dsimp only at hok
    rw [if_pos hp] at hok
    cases hok
    exact ⟨off, rfl, rfl⟩

theorem jobInvB_calc {now : Int} {cj : Job} {t : Int}
    (hok : calcNextRunTime now cj = .ok t) :
    jobInvB { cj with nextRunTime := t } = true := by
  unfold jobInvB
  by_cases hp : cj.status = STATUS_PAUSED
  · rcases calc_paused_sentinel hok hp with ⟨off, hoff, ht⟩
    simp [hp, hoff, ht]
  · simp [hp]

/-! ## Inversion lemmas for the scheduler operations -/

theorem updateJob_ok {reg : Registry} {now : Int} {st : StoreState} {j : Job}
    {st' : StoreState} {j' : Job}
    (h : Scheduler.updateJob reg now st j = .ok (st', j')) :
    ∃ oJ t, st.getJob j.id = .ok oJ ∧
      calcNextRunTime now (Scheduler.coerceStatus j oJ) = .ok t ∧
      j' = { Scheduler.coerceStatus j oJ with nextRunTime := t } ∧
      st'.jobs = replaceJob st.jobs j' := by
  unfold Scheduler.updateJob at h
  cases hoJ : st.getJob j.id with
  | error e => rw [hoJ] at h; cases h
  | ok oJ =>
    rw [hoJ] at h
    dsimp only at h
    cases hchk : (Scheduler.coerceStatus j oJ).check reg with
    | error e => rw [hchk] at h; cases h
    | ok u =>
      rw [hchk] at h
      dsimp only at h
      cases hcalc : calcNextRunTime now (Scheduler.coerceStatus j oJ) with
      | error e => rw [hcalc] at h; cases h
      | ok t =>
        rw [hcalc] at h
        dsimp only at h
        unfold StoreState.updateJob at h
        cases hf : findJob st.jobs { Scheduler.coerceStatus j oJ with nextRunTime := t }.id with
        | none => rw [hf] at h; cases h
        | some k =>
          rw [hf] at h
          dsimp only at h
          cases h
          exact ⟨oJ, t, rfl, hcalc, rfl, rfl⟩

theorem addJob_ok {reg : Registry} {now : Int} {newId : String} {st : StoreState} {j : Job}
    {st' : StoreState} {j' : Job}
    (h : Scheduler.addJob reg now newId st j = .ok (st', j')) :
    ∃ cj t, calcNextRunTime now cj = .ok t ∧
      j' = { cj with nextRunTime := t } ∧
      st'.jobs = st.jobs ++ [j'] := by
  unfold Scheduler.addJob at h
  cases hinit : j.init reg now newId with
  | error e => rw [hinit] at h; cases h
  | ok jI =>
    rw [hinit] at h
    dsimp only at h
    unfold StoreState.addJob at h
    cases hf : findJob st.jobs jI.id with
    | some k => rw [hf] at h; cases h
    | none =>
      rw [hf] at h
      dsimp only at h
      cases h
      unfold Job.init at hinit
      dsimp only at hinit
      cases hchk : (j.withDefaults newId).check reg with
      | error e => rw [hchk] at hinit; cases hinit
      | ok u =>
        rw [hchk] at hinit
        dsimp only at hinit
        cases hcalc : calcNextRunTime now (j.withDefaults newId) with
        | error e => rw [hcalc] at hinit; cases hinit
        | ok t =>
          rw [hcalc] at hinit
          dsimp only at hinit
          cases hinit
          exact ⟨j.withDefaults newId, t, hcalc, rfl, rfl⟩

theorem deleteJob_ok {st : StoreState} {i : String} {st' : StoreState}
    (h : Scheduler.deleteJob st i = .ok st') : st' = st.deleteJob i := by
  unfold Scheduler.deleteJob at h
  cases hg : st.getJob i with
  | error e => rw [hg] at h; cases h
  | ok k => rw [hg] at h; cases h; rfl

theorem flushJob_ok_cases {reg : Registry} {now : Int} {st : StoreState} {j : Job}
    {st' : StoreState}
    (h : Scheduler.flushJob reg now st j = .ok st') :
    st' = st ∨ (∃ i, st' = st.deleteJob i) ∨
      ∃ j2, Scheduler.updateJob reg now st { j with lastRunTime := now } = .ok (st', j2) := by
  unfold Scheduler.flushJob at h
  dsimp only at h
  split at h
  · split at h
    · exact Or.inr (Or.inl ⟨_, deleteJob_ok h⟩)
    · cases h; exact Or.inl rfl
  · cases hup : Scheduler.updateJob reg now st { j with lastRunTime := now } with
    | error e => rw [hup] at h; cases h
    | ok p =>
      obtain ⟨st1, j2⟩ := p
      rw [hup] at h
      dsimp only at h
      cases h
      exact Or.inr (Or.inr ⟨j2, rfl⟩)

/-! ## Invariant preservation -/

theorem storeInv_updateJob {reg : Registry} {now : Int} {st : StoreState} {j : Job}
    {st' : StoreState} {j' : Job} (hinv : StoreInv st)
    (h : Scheduler.updateJob reg now st j = .ok (st', j')) : StoreInv st' := by
  rcases updateJob_ok h with ⟨oJ, t, _, hcalc, hj', hjobs⟩
  intro k hk
  rw [hjobs] at hk
  rcases mem_replaceJob hk with hk | hk
  · rw [hk, hj']
    exact jobInvB_calc hcalc
  · exact hinv k hk

theorem storeInv_addJob {reg : Registry} {now : Int} {newId : String} {st : StoreState}
    {j : Job} {st' : StoreState} {j' : Job} (hinv : StoreInv st)
    (h : Scheduler.addJob reg now newId st j = .ok (st', j')) : StoreInv st' := by
  rcases addJob_ok h with ⟨cj, t, hcalc, hj', hjobs⟩
  intro k hk
  rw [hjobs] at hk
  rcases List.mem_append.mp hk with hk | hk
  · exact hinv k hk
  · rw [List.mem_singleton.mp hk, hj']
    exact jobInvB_calc hcalc

theorem storeInv_deleteJob {st : StoreState} {i : String} (hinv : StoreInv st) :
    StoreInv (st.deleteJob i) := by
  intro k hk
  exact hinv k (mem_removeJob hk)

theorem storeInv_pauseJob {reg : Registry} {now : Int} {st : StoreState} {i : String}
    {st' : StoreState} {j' : Job} (hinv : StoreInv st)
    (h : Scheduler.pauseJob reg now st i = .ok (st', j')) : StoreInv st' := by
  unfold Scheduler.pauseJob at h
  cases hg : st.getJob i with
  | error e => rw [hg] at h; cases h
  | ok k => rw [hg] at h; exact storeInv_updateJob hinv h

theorem storeInv_resumeJob {reg : Registry} {now : Int} {st : StoreState} {i : String}
    {st' : StoreState} {j' : Job} (hinv : StoreInv st)
    (h : Scheduler.resumeJob reg now st i = .ok (st', j')) : StoreInv st' := by
  unfold Scheduler.resumeJob at h
  cases hg : st.getJob i with
  | error e => rw [hg] at h; cases h
  | ok k => rw [hg] at h; exact storeInv_updateJob hinv h

theorem storeInv_flushJob {reg : Registry} {now : Int} {st : StoreState} {j : Job}
    {st' : StoreState} (hinv : StoreInv st)
    (h : Scheduler.flushJob reg now st j = .ok st') : StoreInv st' := by
  rcases flushJob_ok_cases h with h | ⟨i, h⟩ | ⟨j2, h⟩
  · rw [h]; exact hinv
  · rw [h]; exact storeInv_deleteJob hinv
  · exact storeInv_updateJob hinv h

theorem storeInv_runJobsLoop {reg : Registry} {now : Int} (l : List Job) {st : StoreState}
    (hinv : StoreInv st) : StoreInv (Scheduler.runJobsLoop reg now st l).1 := by
  induction l generalizing st with
  | nil => exact hinv
  | cons j rest ih =>
    unfold Scheduler.runJobsLoop
    dsimp only
    split
    · cases hcalc : calcNextRunTime now j with
      | error e => exact ih hinv
      | ok nrt =>
        dsimp only
        cases hfl : Scheduler.flushJob reg now st { j with nextRunTime := nrt } with
        | error e =>
          have := @ih st hinv
          cases hrec : Scheduler.runJobsLoop reg now st rest with
          | mk stF fs =>
            rw [hrec] at this
            simpa [hrec] using this
        | ok s2 =>
          have h2 := storeInv_flushJob hinv hfl
          have := @ih s2 h2
          cases hrec : Scheduler.runJobsLoop reg now s2 rest with
          | mk stF fs =>
            rw [hrec] at this
            simpa [hrec] using this
    · exact hinv

/-! ## Fired-set characterization of the tick loop -/

theorem runJobsLoop_fired_ids (reg : Registry) (now : Int) (l : List Job) :
    ∀ st : StoreState,
    (∀ k ∈ l, k.nextRunTime < now → ∃ t, calcNextRunTime now k = .ok t) →
    ((Scheduler.runJobsLoop reg now st l).2).map (fun k => k.id) =
      (l.takeWhile (fun k => decide (k.nextRunTime < now))).map (fun k => k.id) := by
  induction l with
  | nil => intro st h; rfl
  | cons j rest ih =>
    intro st h
    have hrest : ∀ k ∈ rest, k.nextRunTime < now → ∃ u, calcNextRunTime now k = .ok u :=
      fun k hk => h k (List.mem_cons_of_mem j hk)
    unfold Scheduler.runJobsLoop
    dsimp only
    by_cases hdue : j.nextRunTime < now
    · rw [if_pos hdue]
      rcases h j (List.mem_cons_self j rest) hdue with ⟨t, ht⟩
      rw [ht]
      dsimp only
      cases hfl : Scheduler.flushJob reg now st { j with nextRunTime := t } with
      | ok s2 =>
        dsimp only
        cases hrec : Scheduler.runJobsLoop reg now s2 rest with
        | mk stF fs =>
          have hI := ih s2 hrest
          rw [hrec] at hI
          simp only [hrec]
          simp [List.takeWhile_cons, hdue, hI]
      | error e =>
        dsimp only
        cases hrec : Scheduler.runJobsLoop reg now st rest with
        | mk stF fs =>
          have hI := ih st hrest
          rw [hrec] at hI
          simp only [hrec]
          simp [List.takeWhile_cons, hdue, hI]
    · rw [if_neg hdue]
      simp [List.takeWhile_cons, hdue]

theorem takeWhile_eq_filter_sorted (now : Int) {l : List Job}
    (h : l.Pairwise fun a b => a.nextRunTime ≤ b.nextRunTime) :
    l.takeWhile (fun k => decide (k.nextRunTime < now)) =
      l.filter (fun k => decide (k.nextRunTime < now)) := by
  induction l with
  | nil => rfl
  | cons a as ih =>
    rcases List.pairwise_cons.mp h with ⟨ha, has⟩
    by_cases hdue : a.nextRunTime < now
    · simp [List.takeWhile_cons, List.filter_cons, hdue, ih has]
    · have hall : ∀ k ∈ as, ¬ (k.nextRunTime < now) :=
        fun k hk hlt => hdue (lt_of_le_of_lt (ha k hk) hlt)
      have hfil : as.filter (fun k => decide (k.nextRunTime < now)) = [] := by
        rw [List.filter_eq_nil_iff]
        intro k hk
        simpa using hall k hk
      simp [List.takeWhile_cons, List.filter_cons, hdue, hfil]

/-! ## Small field lemmas and forward computations -/

theorem getJob_ok_findJob {st : StoreState} {i : String} {k : Job}
    (h : st.getJob i = .ok k) : findJob st.jobs i = some k := by
  unfold StoreState.getJob at h
  cases hf : findJob st.jobs i with
  | none => rw [hf] at h; cases h
  | some a => rw [hf] at h; cases h; rfl

theorem coerceStatus_id (j oJ : Job) : (Scheduler.coerceStatus j oJ).id = j.id := by
  unfold Scheduler.coerceStatus
  split <;> rfl

theorem coerceStatus_lastRunTime (j oJ : Job) :
    (Scheduler.coerceStatus j oJ).lastRunTime = j.lastRunTime := by
  unfold Scheduler.coerceStatus
  split <;> rfl

theorem coerceStatus_of_valid {j : Job} (oJ : Job)
    (h : j.status = STATUS_RUNNING ∨ j.status = STATUS_PAUSED) :
    Scheduler.coerceStatus j oJ = j := by
  unfold Scheduler.coerceStatus
  rcases h with h | h <;>
    rw [if_neg (by simp [h, STATUS_RUNNING, STATUS_PAUSED])]

theorem withDefaultsV1_nextRunTime (j : Job) (newId : String) :
    (j.withDefaultsV1 newId).nextRunTime = j.nextRunTime := by
  unfold Job.withDefaultsV1
  dsimp only
  split <;> split <;> rfl

theorem withDefaultsV1_status (j : Job) (newId : String) :
    (j.withDefaultsV1 newId).status = STATUS_RUNNING := by
  unfold Job.withDefaultsV1
  dsimp only
  split <;> split <;> rfl

theorem withDefaultsV1_id (j : Job) (newId : String) :
    (j.withDefaultsV1 newId).id = newId := by
  unfold Job.withDefaultsV1
  dsimp only
  split <;> split <;> rfl

theorem calc_invalid_timezone {now : Int} {j : Job}
    (h : loadLocation j.timezone = none) :
    calcNextRunTime now j = .error (.invalidSpec "Timezone" j.timezone) := by
  unfold calcNextRunTime
  rw [h]

theorem calc_paused_ok {now : Int} {j : Job} {off : Int}
    (h : loadLocation j.timezone = some off) (hp : j.status = STATUS_PAUSED) :
    calcNextRunTime now j = .ok (nextRunTimeMaxAt off) := by
  unfold calcNextRunTime
  rw [h]
  dsimp only
  rw [if_pos hp]

theorem updateJob_build (reg : Registry) (now : Int) (st : StoreState) (j oJ : Job) (t : Int)
    (hget : st.getJob j.id = .ok oJ)
    (hchk : (Scheduler.coerceStatus j oJ).check reg = .ok ())
    (hcalc : calcNextRunTime now (Scheduler.coerceStatus j oJ) = .ok t) :
    Scheduler.updateJob reg now st j =
      .ok (⟨replaceJob st.jobs { Scheduler.coerceStatus j oJ with nextRunTime := t }⟩,
           { Scheduler.coerceStatus j oJ with nextRunTime := t }) := by
  unfold Scheduler.updateJob
  rw [hget]
  dsimp only
  rw [hchk]
  dsimp only
  rw [hcalc]
  dsimp only
  unfold StoreState.updateJob
  have hfind : findJob st.jobs j.id = some oJ := getJob_ok_findJob hget
  have hid : ({ Scheduler.coerceStatus j oJ with nextRunTime := t } : Job).id = j.id := by
    show (Scheduler.coerceStatus j oJ).id = j.id
    exact coerceStatus_id j oJ
  rw [hid, hfind]

/-! ## Claim theorems -/

/-- C4 (amended): `CalcNextRunTime` resolves the `Timezone` first — an
unresolvable timezone yields the `InvalidSpec` error for every job, paused
included — and only then tests the paused status, returning
`NEXT_RUN_TIME_MAX` (second-truncated UTC) on the job's zone for every
paused job whose timezone resolves; the `Type` dispatch is reached only by
non-paused jobs. -/
theorem calcNextRunTime_timezone_first (now : Int) (j : Job) :
    (loadLocation j.timezone = none →
      calcNextRunTime now j = .error (.invalidSpec "Timezone" j.timezone)) ∧
    (∀ off, loadLocation j.timezone = some off → j.status = STATUS_PAUSED →
      calcNextRunTime now j = .ok (nextRunTimeMaxAt off)) :=
  ⟨fun h => calc_invalid_timezone h, fun _ h hp => calc_paused_ok h hp⟩

/-- Witness for C4 at concrete jobs: an invalid timezone errors, a paused
UTC job gets the sentinel. -/
theorem calcNextRunTime_timezone_first_witness :
    calcNextRunTime 0 jobAddW = .error (.invalidSpec "Timezone" "Mars/Olympus") ∧
    calcNextRunTime 0 jobBadTzW = .error (.invalidSpec "Timezone" "Mars/Olympus") ∧
    calcNextRunTime 0 { jobIntW with status := "paused" } = .ok (nextRunTimeMaxAt 0) :=
  ⟨(calcNextRunTime_timezone_first 0 jobAddW).1 (by decide),
   (calcNextRunTime_timezone_first 0 jobBadTzW).1 (by decide),
   (calcNextRunTime_timezone_first 0 { jobIntW with status := "paused" }).2 0
     (by decide) (by decide)⟩

/-- C4 counterexample: `jobBadTzW` is paused, yet `CalcNextRunTime` returns
the `InvalidSpec` timezone error, not `NEXT_RUN_TIME_MAX` — the paused
status is not checked first as the claim states. -/
theorem paused_job_invalid_timezone_errors :
    jobBadTzW.status = STATUS_PAUSED ∧
    calcNextRunTime 0 jobBadTzW = .error (.invalidSpec "Timezone" "Mars/Olympus") :=
  ⟨by decide, by decide⟩

/-- C9: `RunJob` leaves the store — every stored job, with its
`NextRunTime` and `LastRunTime` — untouched, and when the function is
registered and the `Timeout` parses it fires the function exactly once. -/
theorem runJob_frame (reg : Registry) (st : StoreState) (j : Job) :
    (Scheduler.runJob reg st j).1 = st ∧
    (reg.contains j.funcName = true → ∀ d, parseDuration j.timeout = some d →
      (Scheduler.runJob reg st j).2 = .ran j.funcName) := by
  refine ⟨rfl, ?_⟩
  intro h1 d h2
  have h1m : j.funcName ∈ reg := by simpa using h1
  unfold Scheduler.runJob Scheduler.runJobEffect
  dsimp only
  rw [if_neg (by simp [h1m]), h2]

/-- Witness for C9 on a one-job store. -/
theorem runJob_frame_witness :
    (Scheduler.runJob regW ⟨[jobIntW]⟩ jobIntW).1 = ⟨[jobIntW]⟩ ∧
    (Scheduler.runJob regW ⟨[jobIntW]⟩ jobIntW).2 = .ran "main.printMsg" :=
  ⟨(runJob_frame regW ⟨[jobIntW]⟩ jobIntW).1,
   (runJob_frame regW ⟨[jobIntW]⟩ jobIntW).2 (by decide) 3600000000000 (by decide)⟩

/-- C10: the older `AddJob` keeps a caller-supplied non-zero `NextRunTime`
unchanged (`CalcNextRunTime` is never consulted — no assumption on the
timezone or the schedule fields is needed) and forces the persisted
`Status` to running whatever the caller supplied, paused included. -/
theorem addJobV1_keeps_nonzero_next_run_time (reg : Registry) (now : Int) (newId : String)
    (st : StoreState) (j : Job)
    (hnrt : j.nextRunTime ≠ timeZeroUnix)
    (hreg : reg.contains (j.withDefaultsV1 newId).funcName = true)
    (hfresh : findJob st.jobs newId = none) :
    Scheduler.addJobV1 reg now newId st j =
      .ok (⟨st.jobs ++ [j.withDefaultsV1 newId]⟩, j.withDefaultsV1 newId) ∧
    (j.withDefaultsV1 newId).nextRunTime = j.nextRunTime ∧
    (j.withDefaultsV1 newId).status = STATUS_RUNNING := by
  refine ⟨?_, withDefaultsV1_nextRunTime j newId, withDefaultsV1_status j newId⟩
  have hregm : (j.withDefaultsV1 newId).funcName ∈ reg := by simpa using hreg
  unfold Scheduler.addJobV1
  dsimp only
  rw [if_neg (by simp [hregm])]
  rw [withDefaultsV1_nextRunTime j newId, if_neg hnrt]
  dsimp only
  unfold StoreState.addJob
  rw [withDefaultsV1_id j newId, hfresh]

/-- Witness for C10: a caller-supplied paused job with `NextRunTime = 100`
and an unresolvable timezone is persisted unchanged except for the forced
running status. -/
theorem addJobV1_keeps_nonzero_next_run_time_witness :
    Scheduler.addJobV1 regW 0 "id1" ⟨[]⟩ jobAddW = .ok (⟨[jobAddW1]⟩, jobAddW1) ∧
    jobAddW.status = STATUS_PAUSED ∧ jobAddW1.status = STATUS_RUNNING ∧
    jobAddW1.nextRunTime = 100 := by
  refine ⟨?_, by decide, by decide, by decide⟩
  have h := (addJobV1_keeps_nonzero_next_run_time regW 0 "id1" ⟨[]⟩ jobAddW
    (by decide) (by decide) (by decide)).1
  have hj : jobAddW.withDefaultsV1 "id1" = jobAddW1 := by decide
  rw [hj] at h
  simpa using h

/-- C8 (amended): with an empty store `GetNextRunTime` returns
`NEXT_RUN_TIME_MAX` and a tick of the run loop stays alive — it fires
nothing, leaves the store empty, and resets the timer — but the reset
interval is `NEXT_RUN_TIME_MAX - now` (clamped to one second only when
negative), not one second. -/
theorem empty_store_tick_behavior (reg : Registry) (now : Int)
    (h : now ≤ nextRunTimeMaxUtc) :
    StoreState.getNextRunTime ⟨[]⟩ = nextRunTimeMaxUtc ∧
    (Scheduler.runTick reg now ⟨[]⟩).store = ⟨[]⟩ ∧
    (Scheduler.runTick reg now ⟨[]⟩).fired = [] ∧
    (Scheduler.runTick reg now ⟨[]⟩).nextWakeupInterval = nextRunTimeMaxUtc - now := by
  refine ⟨rfl, rfl, rfl, ?_⟩
  show Scheduler.getNextWakeupInterval now ⟨[]⟩ = nextRunTimeMaxUtc - now
  unfold Scheduler.getNextWakeupInterval StoreState.getNextRunTime
  dsimp only
  rw [if_neg (by omega)]

/-- Witness for C8 at tick time 100. -/
theorem empty_store_tick_behavior_witness :
    StoreState.getNextRunTime ⟨[]⟩ = nextRunTimeMaxUtc ∧
    (Scheduler.runTick regW 100 ⟨[]⟩).nextWakeupInterval = nextRunTimeMaxUtc - 100 :=
  ⟨(empty_store_tick_behavior regW 100 (by decide)).1,
   (empty_store_tick_behavior regW 100 (by decide)).2.2.2⟩

/-- C8 counterexample: on an empty store the next wakeup interval is the
far-future `NEXT_RUN_TIME_MAX - now`, not one second as the claim
states. -/
theorem empty_store_wakeup_not_one_second :
    StoreState.getNextRunTime ⟨[]⟩ = nextRunTimeMaxUtc ∧
    (Scheduler.runTick regW 100 ⟨[]⟩).nextWakeupInterval = 253392484049 ∧
    (Scheduler.runTick regW 100 ⟨[]⟩).nextWakeupInterval ≠ 1 :=
  ⟨by decide, by decide, by decide⟩

/-- C6 (amended): the older `AddJob` rejects an unregistered resolved
`FuncName` with `FuncUnregistered`, and an unresolvable timezone with
`InvalidSpec` — but the latter only when the caller left `NextRunTime`
zero, since a non-zero `NextRunTime` skips `CalcNextRunTime` entirely; in
both error cases the operation returns before `store.AddJob`, so nothing
is persisted. -/
theorem addJobV1_error_cases (reg : Registry) (now : Int) (newId : String)
    (st : StoreState) (j : Job) :
    (reg.contains (j.withDefaultsV1 newId).funcName = false →
      Scheduler.addJobV1 reg now newId st j =
        .error (.funcUnregistered (j.withDefaultsV1 newId).funcName)) ∧
    (reg.contains (j.withDefaultsV1 newId).funcName = true →
      j.nextRunTime = timeZeroUnix →
      loadLocation (j.withDefaultsV1 newId).timezone = none →
      Scheduler.addJobV1 reg now newId st j =
        .error (.invalidSpec "Timezone" (j.withDefaultsV1 newId).timezone)) := by
  constructor
  · intro hreg
    unfold Scheduler.addJobV1
    dsimp only
    rw [if_pos hreg]
  · intro hreg hzero htz
    have hregm : (j.withDefaultsV1 newId).funcName ∈ reg := by simpa using hreg
    unfold Scheduler.addJobV1
    dsimp only
    rw [if_neg (by simp [hregm])]
    rw [withDefaultsV1_nextRunTime j newId, if_pos hzero]
    rw [calc_invalid_timezone htz]

/-- Witness for C6: both error branches at concrete inputs. -/
theorem addJobV1_error_cases_witness :
    Scheduler.addJobV1 regW 0 "id1" ⟨[]⟩ jobNoFuncW = .error (.funcUnregistered "nope") ∧
    Scheduler.addJobV1 regW 0 "id1" ⟨[]⟩ jobAddZW =
      .error (.invalidSpec "Timezone" "Mars/Olympus") := by
  constructor
  · have h := (addJobV1_error_cases regW 0 "id1" ⟨[]⟩ jobNoFuncW).1 (by decide)
    simpa using h
  · have h := (addJobV1_error_cases regW 0 "id1" ⟨[]⟩ jobAddZW).2
      (by decide) (by decide) (by decide)
    simpa using h

/-- C6 counterexample: an unresolvable timezone does not make `AddJob`
fail when the caller supplies a non-zero `NextRunTime`: `jobAddW` (timezone
"Mars/Olympus") is accepted and persisted. -/
theorem addJobV1_invalid_timezone_persisted :
    loadLocation jobAddW.timezone = none ∧
    Scheduler.addJobV1 regW 0 "id1" ⟨[]⟩ jobAddW = .ok (⟨[jobAddW1]⟩, jobAddW1) :=
  ⟨by decide, by decide⟩

/-- C5: for an existing id, `UpdateJob` coerces an invalid status (empty or
neither running nor paused) to the previously stored one, recomputes
`NextRunTime` as `CalcNextRunTime` of the coerced job, persists the result
by replacing the stored entry, and returns exactly the persisted
snapshot. -/
theorem updateJob_coerces_recomputes_persists (reg : Registry) (now : Int)
    (st : StoreState) (j oJ : Job) (st' : StoreState) (j' : Job)
    (hget : st.getJob j.id = .ok oJ)
    (hbad : j.status = "" ∨ (j.status ≠ STATUS_RUNNING ∧ j.status ≠ STATUS_PAUSED))
    (hok : Scheduler.updateJob reg now st j = .ok (st', j')) :
    j'.status = oJ.status ∧
    calcNextRunTime now { j with status := oJ.status } = .ok j'.nextRunTime ∧
    j' = { j with status := oJ.status, nextRunTime := j'.nextRunTime } ∧
    st'.jobs = replaceJob st.jobs j' ∧
    st'.getJob j.id = .ok j' := by
  rcases updateJob_ok hok with ⟨oJ2, t, hget2, hcalc, hj', hjobs⟩
  have hoJ : oJ2 = oJ := by
    have h := hget.symm.trans hget2
    cases h
    rfl
  subst hoJ
  have hco : Scheduler.coerceStatus j oJ2 = { j with status := oJ2.status } := by
    unfold Scheduler.coerceStatus
    rw [if_pos hbad]
  rw [hco] at hcalc hj'
  subst hj'
  refine ⟨rfl, hcalc, rfl, hjobs, ?_⟩
  have hfind : findJob st.jobs j.id = some oJ2 := getJob_ok_findJob hget
  exact getJob_replace_self rfl hfind hjobs

/-- Witness for C5: updating `jobIntW` with status "bogus" and a changed
interval coerces back to running, recomputes `NextRunTime` to 104 and
persists that snapshot. -/
theorem updateJob_coerces_recomputes_persists_witness :
    jobUpdW1.status = jobIntW.status ∧
    calcNextRunTime 100 { jobUpdW with status := jobIntW.status } = .ok jobUpdW1.nextRunTime ∧
    jobUpdW1 = { jobUpdW with status := jobIntW.status, nextRunTime := jobUpdW1.nextRunTime } ∧
    (⟨[jobUpdW1]⟩ : StoreState).jobs = replaceJob [jobIntW] jobUpdW1 ∧
    (⟨[jobUpdW1]⟩ : StoreState).getJob jobUpdW.id = .ok jobUpdW1 :=
  updateJob_coerces_recomputes_persists regW 100 ⟨[jobIntW]⟩ jobUpdW jobIntW
    ⟨[jobUpdW1]⟩ jobUpdW1 (by decide) (Or.inr (by decide)) (by decide)

/-- C2 (amended): a tick of the run loop fires exactly the jobs whose
`NextRunTime` is STRICTLY below the captured `now` (`Before`), in sorted
order — a job whose `NextRunTime` equals `now` is NOT fired — and the
iteration breaks at the first job with `NextRunTime ≥ now`; the sort is a
permutation of the stored jobs.  (Jobs whose recomputation fails are
skipped with a log; the hypothesis rules that out.) -/
theorem run_loop_fires_exactly_strictly_due (reg : Registry) (now : Int) (st : StoreState)
    (hcalc : ∀ k ∈ st.jobs, k.nextRunTime < now → ∃ t, calcNextRunTime now k = .ok t) :
    ((Scheduler.runTick reg now st).fired).map (fun k => k.id) =
      ((sortJobs st.jobs).filter (fun k => decide (k.nextRunTime < now))).map
        (fun k => k.id) ∧
    List.Perm (sortJobs st.jobs) st.jobs := by
  refine ⟨?_, sortJobs_perm st.jobs⟩
  have hcalc' : ∀ k ∈ sortJobs st.jobs, k.nextRunTime < now →
      ∃ t, calcNextRunTime now k = .ok t :=
    fun k hk => hcalc k (mem_sortJobs hk)
  have h1 := runJobsLoop_fired_ids reg now (sortJobs st.jobs) st hcalc'
  have h2 := takeWhile_eq_filter_sorted now (pairwise_sortJobs st.jobs)
  unfold Scheduler.runTick
  dsimp only
  cases hrec : Scheduler.runJobsLoop reg now st (sortJobs st.jobs) with
  | mk a b =>
    rw [hrec] at h1
    dsimp only
    dsimp only at h1
    exact h1.trans (congrArg (List.map fun k => k.id) h2)

/-- Witness for C2: at tick 101 the store's single job (next run 100) is
fired. -/
theorem run_loop_fires_exactly_strictly_due_witness :
    ((Scheduler.runTick regW 101 ⟨[jobIntW]⟩).fired).map (fun k => k.id) =
      ((sortJobs [jobIntW]).filter (fun k => decide (k.nextRunTime < 101))).map
        (fun k => k.id) :=
  (run_loop_fires_exactly_strictly_due regW 101 ⟨[jobIntW]⟩ (by
    intro k hk hdue
    rw [List.mem_singleton.mp hk]
    exact ⟨103, by decide⟩)).1

/-- C2 counterexample: `jobIntW` has `NextRunTime = 100`; at a tick with
`now = 100` (so `NextRunTime ≤ now`, with equality) nothing is fired — the
code fires only `NextRunTime < now`, refuting "a job whose NextRunTime
equals now is fired in that tick". -/
theorem due_job_equal_now_not_fired :
    jobIntW.nextRunTime = 100 ∧
    (⟨[jobIntW]⟩ : StoreState).jobs = [jobIntW] ∧
    (Scheduler.runTick regW 100 ⟨[jobIntW]⟩).fired = [] ∧
    (Scheduler.runTick regW 101 ⟨[jobIntW]⟩).fired ≠ [] :=
  ⟨by decide, by decide, by decide, by decide⟩

/-- C1 (amended): the "paused ⇒ NextRunTime = NEXT_RUN_TIME_MAX (on the
job's timezone)" direction is an invariant preserved by every successful
mutation — `AddJob`, `UpdateJob`, `PauseJob`, `ResumeJob` and a full
run-loop tick (whose flush deletes or re-persists through `UpdateJob`).
The claimed converse direction is false (see the counterexample): a
running job can carry the sentinel `NextRunTime`. -/
theorem paused_sentinel_invariant_preserved (reg : Registry) (now : Int)
    (newId i : String) (st : StoreState) (j : Job) (hinv : StoreInv st) :
    (∀ st' j', Scheduler.addJob reg now newId st j = .ok (st', j') → StoreInv st') ∧
    (∀ st' j', Scheduler.updateJob reg now st j = .ok (st', j') → StoreInv st') ∧
    (∀ st' j', Scheduler.pauseJob reg now st i = .ok (st', j') → StoreInv st') ∧
    (∀ st' j', Scheduler.resumeJob reg now st i = .ok (st', j') → StoreInv st') ∧
    StoreInv (Scheduler.runTick reg now st).store := by
  refine ⟨fun _ _ h => storeInv_addJob hinv h,
          fun _ _ h => storeInv_updateJob hinv h,
          fun _ _ h => storeInv_pauseJob hinv h,
          fun _ _ h => storeInv_resumeJob hinv h, ?_⟩
  have h := @storeInv_runJobsLoop reg now (sortJobs st.jobs) st hinv
  unfold Scheduler.runTick
  dsimp only
  cases hrec : Scheduler.runJobsLoop reg now st (sortJobs st.jobs) with
  | mk a b =>
    rw [hrec] at h
    exact h

/-- Witness for C1: a one-running-job store satisfies the invariant, and
still does after a tick and after a successful pause. -/
theorem paused_sentinel_invariant_preserved_witness :
    StoreInv ⟨[jobIntW]⟩ ∧ StoreInv (Scheduler.runTick regW 100 ⟨[jobIntW]⟩).store :=
  ⟨by decide,
   (paused_sentinel_invariant_preserved regW 100 "x" "b" ⟨[jobIntW]⟩ jobIntW
     (by decide)).2.2.2.2⟩

/-- C1 counterexample: `UpdateJob` successfully persists `jobSentW` — a
running datetime job whose `StartAt` is the sentinel wall-clock instant —
with `NextRunTime = NEXT_RUN_TIME_MAX` of its (UTC) timezone while
`Status = running`, refuting the claimed equivalence in the "sentinel ⇒
paused" direction. -/
theorem running_job_with_sentinel_next_run_time :
    Scheduler.updateJob regW 1000 ⟨[jobSentW]⟩ jobSentW = .ok (⟨[jobSentW1]⟩, jobSentW1) ∧
    jobSentW1.status = STATUS_RUNNING ∧
    loadLocation jobSentW1.timezone = some 0 ∧
    jobSentW1.nextRunTime = nextRunTimeMaxAt 0 :=
  ⟨by decide, by decide, by decide, by decide⟩

/-- C3 (amended): the flush step stamps `LastRunTime` with the
second-truncated tick time; a datetime job is deleted when its (already
recomputed, post-update) `NextRunTime` is in the past, and is left
entirely untouched otherwise; every non-datetime job is persisted through
`UpdateJob` with the stamped `LastRunTime`.  The claimed "pre-update
NextRunTime" deletion condition is what fails (see the
counterexample). -/
theorem flushJob_stamps_and_branches (reg : Registry) (now : Int) (st : StoreState)
    (j : Job) :
    (j.type = TYPE_DATETIME → j.nextRunTime < now →
      ∀ st', Scheduler.flushJob reg now st j = .ok st' →
        ∀ k ∈ st'.jobs, k.id ≠ j.id) ∧
    (j.type = TYPE_DATETIME → ¬ j.nextRunTime < now →
      Scheduler.flushJob reg now st j = .ok st) ∧
    (j.type ≠ TYPE_DATETIME →
      ∀ st', Scheduler.flushJob reg now st j = .ok st' →
        ∃ j2, Scheduler.updateJob reg now st { j with lastRunTime := now } = .ok (st', j2) ∧
          j2.lastRunTime = now ∧ st'.getJob j.id = .ok j2) := by
  refine ⟨?_, ?_, ?_⟩
  · intro ht hdue st' h k hk
    unfold Scheduler.flushJob at h
    dsimp only at h
    rw [if_pos ht, if_pos hdue] at h
    rw [deleteJob_ok h] at hk
    exact mem_removeJob_ne hk
  · intro ht hdue
    unfold Scheduler.flushJob
    dsimp only
    rw [if_pos ht, if_neg hdue]
  · intro ht st' h
    unfold Scheduler.flushJob at h
    dsimp only at h
    rw [if_neg ht] at h
    cases hup : Scheduler.updateJob reg now st { j with lastRunTime := now } with
    | error e => rw [hup] at h; cases h
    | ok p =>
      obtain ⟨st1, j2⟩ := p
      rw [hup] at h
      dsimp only at h
      cases h
      refine ⟨j2, rfl, ?_, ?_⟩
      · rcases updateJob_ok hup with ⟨oJ, t, _, _, hj2, _⟩
        rw [hj2]
        show (Scheduler.coerceStatus { j with lastRunTime := now } oJ).lastRunTime = now
        rw [coerceStatus_lastRunTime]
      · rcases updateJob_ok hup with ⟨oJ, t, hget, _, hj2, hjobs⟩
        have hfind : findJob st.jobs j.id = some oJ := getJob_ok_findJob hget
        have hid : j2.id = j.id := by
          rw [hj2]
          show (Scheduler.coerceStatus { j with lastRunTime := now } oJ).id = j.id
          rw [coerceStatus_id]
        exact getJob_replace_self hid hfind hjobs

/-- Witness for C3: a due datetime job (`jobPastW` at tick 1700000000) is
deleted by the flush — no job with its id remains — and a non-datetime job
(`jobIntW` at tick 101) is re-persisted with `LastRunTime = 101`. -/
theorem flushJob_stamps_and_branches_witness :
    jobPastW.type = TYPE_DATETIME ∧ jobPastW.nextRunTime < 1700000000 ∧
    Scheduler.flushJob regW 1700000000 ⟨[jobPastW]⟩ jobPastW = .ok ⟨[]⟩ ∧
    (∀ k ∈ (⟨[]⟩ : StoreState).jobs, k.id ≠ jobPastW.id) ∧
    (∃ j2, Scheduler.updateJob regW 101 ⟨[jobIntW]⟩ jobIntWL = .ok (⟨[jobIntWF]⟩, j2) ∧
      j2.lastRunTime = 101 ∧
      (⟨[jobIntWF]⟩ : StoreState).getJob jobIntW.id = .ok j2) :=
  ⟨by decide, by decide, by decide,
   (flushJob_stamps_and_branches regW 1700000000 ⟨[jobPastW]⟩ jobPastW).1
     (by decide) (by decide) ⟨[]⟩ (by decide),
   (flushJob_stamps_and_branches regW 101 ⟨[jobIntW]⟩ jobIntW).2.2 (by decide)
     ⟨[jobIntWF]⟩ (by decide)⟩

/-- C3 counterexample: `jobStaleW` is a datetime job whose stored
(pre-update) `NextRunTime` 50 is in the past of the tick at 100, so the
claim demands its deletion; the tick fires it but the store still contains
it unchanged afterwards — the code keys deletion on the recomputed
`NextRunTime` (2100-01-01, in the future), and the job is not persisted
either. -/
theorem stale_datetime_job_not_deleted :
    jobStaleW.type = TYPE_DATETIME ∧ jobStaleW.nextRunTime < 100 ∧
    (Scheduler.runTick regW 100 ⟨[jobStaleW]⟩).fired.map (fun k => k.id) = ["c"] ∧
    (Scheduler.runTick regW 100 ⟨[jobStaleW]⟩).store = ⟨[jobStaleW]⟩ :=
  ⟨by decide, by decide, by decide, by decide⟩

theorem check_ok {j : Job} {reg : Registry} (h : reg.contains j.funcName = true) :
    j.check reg = .ok () := by
  unfold Job.check
  rw [if_pos h]

theorem calc_interval_ok {now : Int} {j : Job} {off d : Int}
    (hloc : loadLocation j.timezone = some off)
    (hrun : j.status = STATUS_RUNNING)
    (htype : strToLower j.type = TYPE_INTERVAL)
    (hdur : parseDuration j.interval = some d) :
    calcNextRunTime now j = .ok (now + Int.fdiv d 1000000000) := by
  unfold calcNextRunTime
  rw [hloc]
  dsimp only
  rw [if_neg (by rw [hrun]; decide)]
  rw [if_neg (by rw [htype]; decide), if_pos htype, hdur]

/-- C7 (amended): for a stored interval job with a positive whole-second
interval (and a next fire before the sentinel), `PauseJob` then `ResumeJob`
yields a running job whose `NextRunTime` is not the sentinel and lies
strictly after `now`.  For datetime jobs the claim fails (see the
counterexample): resuming recomputes `NextRunTime` from `StartAt`, which
may be in the past. -/
theorem pause_resume_interval_future (reg : Registry) (now : Int) (st : StoreState)
    (i : String) (j : Job) (off d : Int)
    (hfind : findJob st.jobs i = some j)
    (htype : strToLower j.type = TYPE_INTERVAL)
    (hloc : loadLocation j.timezone = some off)
    (hdur : parseDuration j.interval = some d)
    (hpos : 1 ≤ Int.fdiv d 1000000000)
    (hmax : now + Int.fdiv d 1000000000 < nextRunTimeMaxAt off)
    (hreg : reg.contains j.funcName = true) :
    ∃ st1 j1 st2 j2,
      Scheduler.pauseJob reg now st i = .ok (st1, j1) ∧
      Scheduler.resumeJob reg now st1 i = .ok (st2, j2) ∧
      j2.status = STATUS_RUNNING ∧
      j2.nextRunTime ≠ nextRunTimeMaxAt off ∧
      now < j2.nextRunTime := by
  have hid : j.id = i := findJob_id hfind
  subst hid
  have hget : st.getJob j.id = .ok j := by
    unfold StoreState.getJob
    rw [hfind]
  -- the pause step
  have hcop : Scheduler.coerceStatus { j with status := STATUS_PAUSED } j =
      { j with status := STATUS_PAUSED } :=
    coerceStatus_of_valid j (Or.inr rfl)
  have hchkp : (Scheduler.coerceStatus { j with status := STATUS_PAUSED } j).check reg =
      .ok () := by
    rw [hcop]
    exact check_ok hreg
  have hcalcp : calcNextRunTime now
      (Scheduler.coerceStatus { j with status := STATUS_PAUSED } j) =
      .ok (nextRunTimeMaxAt off) := by
    rw [hcop]
    exact calc_paused_ok hloc rfl
  have hpause := updateJob_build reg now st { j with status := STATUS_PAUSED } j
    (nextRunTimeMaxAt off) hget hchkp hcalcp
  rw [hcop] at hpause
  have hPause : Scheduler.pauseJob reg now st j.id =
      .ok (⟨replaceJob st.jobs
             { j with status := STATUS_PAUSED, nextRunTime := nextRunTimeMaxAt off }⟩,
           { j with status := STATUS_PAUSED, nextRunTime := nextRunTimeMaxAt off }) := by
    unfold Scheduler.pauseJob
    rw [hget]
    exact hpause
  -- the resume step, on the replaced store
  have hget1 : (⟨replaceJob st.jobs
      { j with status := STATUS_PAUSED, nextRunTime := nextRunTimeMaxAt off }⟩ :
      StoreState).getJob j.id =
      .ok { j with status := STATUS_PAUSED, nextRunTime := nextRunTimeMaxAt off } :=
    getJob_replace_self rfl hfind rfl
  have hcor : Scheduler.coerceStatus
      { j with status := STATUS_RUNNING, nextRunTime := nextRunTimeMaxAt off }
      { j with status := STATUS_PAUSED, nextRunTime := nextRunTimeMaxAt off } =
      { j with status := STATUS_RUNNING, nextRunTime := nextRunTimeMaxAt off } :=
    coerceStatus_of_valid _ (Or.inl rfl)
  have hchkr : (Scheduler.coerceStatus
      { j with status := STATUS_RUNNING, nextRunTime := nextRunTimeMaxAt off }
      { j with status := STATUS_PAUSED, nextRunTime := nextRunTimeMaxAt off }).check reg =
      .ok () := by
    rw [hcor]
    exact check_ok hreg
  have hcalcr : calcNextRunTime now (Scheduler.coerceStatus
      { j with status := STATUS_RUNNING, nextRunTime := nextRunTimeMaxAt off }
      { j with status := STATUS_PAUSED, nextRunTime := nextRunTimeMaxAt off }) =
      .ok (now + Int.fdiv d 1000000000) := by
    rw [hcor]
    exact calc_interval_ok hloc rfl htype hdur
  have hfind1 : findJob (replaceJob st.jobs
      { j with status := STATUS_PAUSED, nextRunTime := nextRunTimeMaxAt off })
      ({ j with status := STATUS_RUNNING, nextRunTime := nextRunTimeMaxAt off } : Job).id =
      some { j with status := STATUS_PAUSED, nextRunTime := nextRunTimeMaxAt off } :=
    findJob_replaceJob_of_id rfl hfind
  have hgetr : (⟨replaceJob st.jobs
      { j with status := STATUS_PAUSED, nextRunTime := nextRunTimeMaxAt off }⟩ :
      StoreState).getJob
      ({ j with status := STATUS_RUNNING, nextRunTime := nextRunTimeMaxAt off } : Job).id =
      .ok { j with status := STATUS_PAUSED, nextRunTime := nextRunTimeMaxAt off } := hget1
  have hresume := updateJob_build reg now
    ⟨replaceJob st.jobs
      { j with status := STATUS_PAUSED, nextRunTime := nextRunTimeMaxAt off }⟩
    { j with status := STATUS_RUNNING, nextRunTime := nextRunTimeMaxAt off }
    { j with status := STATUS_PAUSED, nextRunTime := nextRunTimeMaxAt off }
    (now + Int.fdiv d 1000000000) hgetr hchkr hcalcr
  rw [hcor] at hresume
  have hResume : Scheduler.resumeJob reg now
      ⟨replaceJob st.jobs
        { j with status := STATUS_PAUSED, nextRunTime := nextRunTimeMaxAt off }⟩ j.id =
      .ok (⟨replaceJob
              (replaceJob st.jobs
                { j with status := STATUS_PAUSED, nextRunTime := nextRunTimeMaxAt off })
              { j with status := STATUS_RUNNING,
                       nextRunTime := now + Int.fdiv d 1000000000 }⟩,
           { j with status := STATUS_RUNNING,
                    nextRunTime := now + Int.fdiv d 1000000000 }) := by
    unfold Scheduler.resumeJob
    rw [hget1]
    exact hresume
  refine ⟨_, _, _, _, hPause, hResume, rfl, ?_, ?_⟩
  · show now + Int.fdiv d 1000000000 ≠ nextRunTimeMaxAt off
    exact ne_of_lt hmax
  · show now < now + Int.fdiv d 1000000000
    omega

/-- Witness for C7: pausing then resuming the stored 2-second interval job
at tick 100. -/
theorem pause_resume_interval_future_witness :
    ∃ st1 j1 st2 j2,
      Scheduler.pauseJob regW 100 ⟨[jobIntW]⟩ "b" = .ok (st1, j1) ∧
      Scheduler.resumeJob regW 100 st1 "b" = .ok (st2, j2) ∧
      j2.status = STATUS_RUNNING ∧
      j2.nextRunTime ≠ nextRunTimeMaxAt 0 ∧
      (100 : Int) < j2.nextRunTime :=
  pause_resume_interval_future regW 100 ⟨[jobIntW]⟩ "b" jobIntW 0 2000000000
    (by decide) (by decide) (by decide) (by decide) (by decide) (by decide) (by decide)

/-- C7 counterexample: pausing then resuming the stored datetime job
`jobPastW` at tick 1700000000 succeeds and restores `Status = running`, but
the recomputed `NextRunTime` is its `StartAt` instant 1695367808, which is
NOT strictly greater than the current time. -/
theorem pause_resume_datetime_past :
    (okJob pauseResumePastRun).map (fun j2 => j2.status) = some STATUS_RUNNING ∧
    (okJob pauseResumePastRun).map (fun j2 => j2.nextRunTime) = some 1695367808 ∧
    ¬ (1700000000 : Int) < 1695367808 :=
  ⟨by decide, by decide, by decide⟩
